import Mathlib

/-
  Verification development for the timely-dataflow repository.

  Shallow embedding of:
  - the Exchange parallelization contract routing (dataflow/operators/core/exchange.rs
    together with the Exchange pact it instantiates),
  - map and flat_map (dataflow/operators/core/map.rs),
  - the generic operator builder (dataflow/operators/generic/builder_rc.rs),
  - the ObserverHelper counter (communication/channels.rs),
  - communication initialization (communication/src/initialize.rs).

  Timestamps are modelled by an arbitrary type T (Nat in concrete witnesses);
  the i64 counts of the source are modelled by Int.
-/

namespace Timely

/-! ## Exchange routing (C1)

The operator in dataflow/operators/core/exchange.rs forwards every input
container through an ExchangeCore pact. -/

/-- Modelled from the spec: the ExchangeCore parallelization contract
(dataflow/channels/pact.rs, not part of the provided sources) computes
F(&record) mod peers to route each record, delivering it to that worker.
Pushing a record appends it to the bucket of its target worker; an
out-of-range target leaves all buckets unchanged (it cannot occur when
the bucket list has length peers). -/
def pushAt {D : Type} : List (List D) → Nat → D → List (List D)
  | [], _, _ => []
  | b :: bs, 0, r => (b ++ [r]) :: bs
  | b :: bs, Nat.succ w, r => b :: pushAt bs w r

/-- Modelled from the spec: routing a sequence of records through Exchange(F)
with fleet size peers: each record r is routed to worker F(r) mod peers. -/
def exchangeDeliver {D : Type} (peers : Nat) (F : D → Nat) (records : List D) : List (List D) :=
  records.foldl (fun bs r => pushAt bs (F r % peers) r) (List.replicate peers [])

theorem pushAt_length {D : Type} (bs : List (List D)) (w : Nat) (r : D) :
    (pushAt bs w r).length = bs.length := by
  induction bs generalizing w with
  | nil => rfl
  | cons b bs ih =>
    cases w with
    | zero => rfl
    | succ w => simpa [pushAt] using ih w

theorem pushAt_getD {D : Type} (bs : List (List D)) (w : Nat) (r : D) (i : Nat) :
    (pushAt bs w r).getD i [] =
      if i = w ∧ i < bs.length then bs.getD i [] ++ [r] else bs.getD i [] := by
  induction bs generalizing w i with
  | nil => simp [pushAt]
  | cons b bs ih =>
    cases w with
    | zero =>
      cases i with
      | zero => simp [pushAt]
      | succ i => simp [pushAt, Nat.succ_ne_zero]
    | succ w =>
      cases i with
      | zero => simp [pushAt]
      | succ i =>
        have h := ih w i
        simp only [pushAt, List.getD_cons_succ, List.length_cons, h]
        by_cases h1 : i = w
        · by_cases h2 : i < bs.length
          · simp [h1, h2, Nat.succ_lt_succ h2]
          · simp [h1, h2, fun h => h2 (Nat.lt_of_succ_lt_succ h)]
        · simp [h1, fun h => h1 (Nat.succ_injective h)]

theorem exchangeDeliver_foldl_length {D : Type} (peers : Nat) (F : D → Nat)
    (records : List D) (bs : List (List D)) :
    (records.foldl (fun bs r => pushAt bs (F r % peers) r) bs).length = bs.length := by
  induction records generalizing bs with
  | nil => rfl
  | cons r rest ih => simpa [List.foldl_cons, pushAt_length] using ih (pushAt bs (F r % peers) r)

theorem exchangeDeliver_foldl_getD {D : Type} [DecidableEq D] (peers : Nat) (F : D → Nat)
    (records : List D) (bs : List (List D)) (hbs : bs.length = peers)
    (w : Nat) (hw : w < peers) :
    (records.foldl (fun bs r => pushAt bs (F r % peers) r) bs).getD w [] =
      bs.getD w [] ++ records.filter (fun r => F r % peers = w) := by
  induction records generalizing bs with
  | nil => simp
  | cons r rest ih =>
    have hlen : (pushAt bs (F r % peers) r).length = peers := by
      rw [pushAt_length]; exact hbs
    have h := ih (pushAt bs (F r % peers) r) hlen
    rw [List.foldl_cons, h, pushAt_getD]
    by_cases hr : F r % peers = w
    · simp [hr, hbs, hw, List.filter_cons]
    · have : ¬ (w = F r % peers ∧ w < bs.length) := by
        rintro ⟨h1, _⟩; exact hr h1.symm
      simp [this, List.filter_cons, hr]

theorem count_filter_eq {D : Type} [DecidableEq D] (p : D → Bool) (l : List D) (r : D) :
    (l.filter p).count r = if p r then l.count r else 0 := by
  induction l with
  | nil => simp
  | cons x xs ih =>
    by_cases hx : p x
    · by_cases hxr : x = r
      · subst hxr; simp [List.filter_cons, hx, List.count_cons, ih]
      · simp [List.filter_cons, hx, List.count_cons, ih, hxr]
    · by_cases hxr : x = r
      · subst hxr; simp [List.filter_cons, hx, List.count_cons, ih]
      · simp [List.filter_cons, hx, List.count_cons, ih, hxr]

/-- C1: every record routed through Exchange(F) with fleet size peers >= 1 is
delivered to worker F(r) mod peers and to no other worker, exactly once: the
delivery produces one bucket per worker, the target index is a valid worker,
and the number of copies of r in bucket w equals the multiplicity of r among
the records if w is the target, and zero otherwise. -/
theorem exchange_routes_each_record_once {D : Type} [DecidableEq D]
    (peers : Nat) (F : D → Nat) (records : List D) (r : D) (w : Nat)
    (hp : 1 ≤ peers) (hw : w < peers) :
    (exchangeDeliver peers F records).length = peers ∧
    F r % peers < peers ∧
    ((exchangeDeliver peers F records).getD w []).count r =
      (if F r % peers = w then records.count r else 0) := by
  refine ⟨?_, Nat.mod_lt _ hp, ?_⟩
  · simpa using exchangeDeliver_foldl_length peers F records (List.replicate peers [])
  · rw [exchangeDeliver, exchangeDeliver_foldl_getD peers F records _ (by simp) w hw]
    have hrep : (List.replicate peers ([] : List D)).getD w [] = [] := by
      simp [List.getD, hw, List.getElem?_replicate]
    rw [hrep, List.nil_append, count_filter_eq]
    simp

theorem exchange_routes_witness :
    1 ≤ 4 ∧ 2 < 4 ∧
    ((exchangeDeliver 4 (fun x => x) [6, 2, 6, 3]).getD 2 []).count 6 =
      (if 6 % 4 = 2 then [6, 2, 6, 3].count 6 else 0) := by
  refine ⟨by decide, by decide, ?_⟩
  exact (exchange_routes_each_record_once 4 (fun x => x) [6, 2, 6, 3] 6 2
    (by decide) (by decide)).2.2

/-! ## map and flat_map (C10)

From dataflow/operators/core/map.rs: a stream is modelled by its list of
timestamped batches; flat_map applies the logic to each record of each batch
and emits the results in one session per batch; map is defined, exactly as in
the source, as flat_map of a one-element iterator. -/

/-- From Map::flat_map: for each (time, data) batch, a session at that time
receives data.drain().flat_map(logic). -/
def flatMapStream {T D D2 : Type} (logic : D → List D2) (input : List (T × List D)) :
    List (T × List D2) :=
  input.map (fun td => (td.1, td.2.flatMap logic))

/-- From Map::map: self.flat_map(move |x| std::iter::once(logic(x))). -/
def mapStream {T D D2 : Type} (logic : D → D2) (input : List (T × List D)) :
    List (T × List D2) :=
  flatMapStream (fun x => [logic x]) input

theorem flatMap_singleton_eq_map {D D2 : Type} (f : D → D2) (l : List D) :
    l.flatMap (fun x => [f x]) = l.map f := by
  induction l with
  | nil => rfl
  | cons x xs ih =>
    simp only [List.flatMap] at ih ⊢
    simp [ih]

/-- C10: map(f) is extensionally equal to flat_map of the one-element iterator
of f: on every input, both produce the same records at the same timestamps,
and that common result is the per-batch element-wise mapping by f. -/
theorem map_is_flat_map_once {T D D2 : Type} (f : D → D2) (input : List (T × List D)) :
    mapStream f input = flatMapStream (fun x => [f x]) input ∧
    mapStream f input = input.map (fun td => (td.1, td.2.map f)) := by
  constructor
  · rfl
  · unfold mapStream flatMapStream
    exact List.map_congr_left (fun td _ => by rw [flatMap_singleton_eq_map])

/-! ## Change batches, mutable antichains, and the operator builder (C2, C3, C4) -/

/-- Modelled from the spec: ChangeBatch (progress/change_batch.rs, not among
the provided sources) is an accumulating multiset of (t, i64) pairs with
deferred consolidation. We keep the raw update list; a batch is observed
through its per-timestamp total count, which consolidation preserves. -/
abbrev ChangeBatch (T : Type) : Type := List (T × Int)

/-- Recording a single (t, delta) update into a change batch. -/
def ChangeBatch.update {T : Type} (b : ChangeBatch T) (t : T) (d : Int) : ChangeBatch T :=
  b ++ [(t, d)]

/-- Emptying a change batch. -/
def ChangeBatch.clear {T : Type} (_ : ChangeBatch T) : ChangeBatch T := []

/-- The total count a change batch holds at a timestamp. -/
def ChangeBatch.count {T : Type} [DecidableEq T] (b : ChangeBatch T) (t : T) : Int :=
  (b.map (fun p => if p.1 = t then p.2 else 0)).sum

theorem ChangeBatch.count_append {T : Type} [DecidableEq T] (a b : ChangeBatch T) (t : T) :
    ChangeBatch.count (a ++ b) t = ChangeBatch.count a t + ChangeBatch.count b t := by
  simp [ChangeBatch.count]

/-- Modelled from the spec: MutableAntichain (progress/frontier.rs, not among
the provided sources) is an antichain plus a multiset of (T, i64) counts;
updates are applied as signed deltas and the antichain is re-derived from the
support of the multiset. We record the multiset of counts; update_iter
absorbs a batch of deltas (its reported frontier changes are ignored by
build_reschedule). -/
structure MutableAntichain (T : Type) where
  updates : List (T × Int)
deriving DecidableEq

/-- Absorbing a batch of signed deltas into the multiset of counts. -/
def MutableAntichain.update_iter {T : Type} (m : MutableAntichain T)
    (changes : List (T × Int)) : MutableAntichain T :=
  ⟨m.updates ++ changes⟩

/-- The total count a mutable antichain holds at a timestamp. -/
def MutableAntichain.count {T : Type} [DecidableEq T] (m : MutableAntichain T) (t : T) : Int :=
  ChangeBatch.count m.updates t

/-- From progress/operate.rs SharedProgress (not among the provided sources;
modelled from the spec and from its use in builder_rc.rs): one pending
frontier change batch per input, and consumed, internal and produced change
batches per input resp. output. -/
structure SharedProgress (T : Type) where
  frontiers : List (ChangeBatch T)
  consumeds : List (ChangeBatch T)
  internals : List (ChangeBatch T)
  produceds : List (ChangeBatch T)
deriving DecidableEq

/-- The shared cells of one operator built by OperatorBuilder
(builder_rc.rs): consumed counts per input, internal capability change
batches per output, produced counts per output. -/
structure OpCells (T : Type) where
  consumed : List (ChangeBatch T)
  internal : List (ChangeBatch T)
  produced : List (ChangeBatch T)
deriving DecidableEq

/-- The per-operator state captured by the raw_logic closure of
build_reschedule: the per-input MutableAntichains and the shared cells. -/
structure OpState (T : Type) where
  frontier : List (MutableAntichain T)
  cells : OpCells T
deriving DecidableEq

/-- From build_reschedule (builder_rc.rs, the frontier loop): each pending
frontier change batch of the shared progress is drained into the
corresponding per-input MutableAntichain; pairs beyond the shorter list are
untouched, as with Iterator::zip. -/
def drainFrontiers {T : Type} : List (MutableAntichain T) → List (ChangeBatch T) →
    List (MutableAntichain T) × List (ChangeBatch T)
  | fs, [] => (fs, [])
  | [], ps => ([], ps)
  | f :: fs, p :: ps =>
    let r := drainFrontiers fs ps
    (MutableAntichain.update_iter f p :: r.1, [] :: r.2)

/-- From build_reschedule (builder_rc.rs, the consumed, internal and produced
loops): each per-port cell is drained into the corresponding shared progress
change batch; drain_into appends the updates and empties the cell, and
extend-of-drain does the same. Pairs beyond the shorter list are untouched. -/
def drainPairs {T : Type} : List (ChangeBatch T) → List (ChangeBatch T) →
    List (ChangeBatch T) × List (ChangeBatch T)
  | ps, [] => (ps, [])
  | [], cs => ([], cs)
  | p :: ps, c :: cs =>
    let r := drainPairs ps cs
    ((p ++ c) :: r.1, [] :: r.2)

/-- From OperatorBuilder::build_reschedule (builder_rc.rs): the raw_logic
closure run at each operator step. The user logic is modelled as a function
of the refreshed input frontiers and of the operator cells it may mutate
(through input handles, capabilities and output sessions), returning the
reschedule boolean. -/
def buildRescheduleStep {T : Type}
    (logic : List (MutableAntichain T) → OpCells T → Bool × OpCells T)
    (progress : SharedProgress T) (s : OpState T) :
    Bool × SharedProgress T × OpState T :=
  -- drain frontier changes
  let fr := drainFrontiers s.frontier progress.frontiers
  -- invoke supplied logic
  let invoked := logic fr.1 s.cells
  -- move batches of consumed changes
  let dc := drainPairs progress.consumeds invoked.2.consumed
  -- move batches of internal changes
  let di := drainPairs progress.internals invoked.2.internal
  -- move batches of produced changes
  let dp := drainPairs progress.produceds invoked.2.produced
  (invoked.1,
   { frontiers := fr.2, consumeds := dc.1, internals := di.1, produceds := dp.1 },
   { frontier := fr.1, cells := { consumed := dc.2, internal := di.2, produced := dp.2 } })

/-- The pair a build_reschedule logic returns when invoked on the refreshed
frontiers: the reschedule boolean and the cell contents it leaves behind. -/
def logicResult {T : Type}
    (logic : List (MutableAntichain T) → OpCells T → Bool × OpCells T)
    (progress : SharedProgress T) (s : OpState T) : Bool × OpCells T :=
  logic (drainFrontiers s.frontier progress.frontiers).1 s.cells

theorem drainPairs_fst_count {T : Type} [DecidableEq T]
    (ps cs : List (ChangeBatch T)) (h : cs.length ≤ ps.length) (i : Nat) (t : T) :
    ChangeBatch.count ((drainPairs ps cs).1.getD i []) t =
      ChangeBatch.count (ps.getD i []) t + ChangeBatch.count (cs.getD i []) t := by
  induction ps generalizing cs i with
  | nil =>
    have hcs : cs = [] := List.length_eq_zero.mp (Nat.le_zero.mp h)
    subst hcs
    simp [drainPairs, ChangeBatch.count]
  | cons p ps ih =>
    cases cs with
    | nil => simp [drainPairs, ChangeBatch.count]
    | cons c cs =>
      cases i with
      | zero => simp [drainPairs, ChangeBatch.count_append]
      | succ i =>
        have h1 : cs.length ≤ ps.length := Nat.le_of_succ_le_succ (by simpa using h)
        simpa [drainPairs] using ih cs h1 i

theorem drainPairs_snd_count {T : Type} [DecidableEq T]
    (ps cs : List (ChangeBatch T)) (h : cs.length ≤ ps.length) (i : Nat) (t : T) :
    ChangeBatch.count ((drainPairs ps cs).2.getD i []) t = 0 := by
  induction ps generalizing cs i with
  | nil =>
    have hcs : cs = [] := List.length_eq_zero.mp (Nat.le_zero.mp h)
    subst hcs
    simp [drainPairs, ChangeBatch.count]
  | cons p ps ih =>
    cases cs with
    | nil => simp [drainPairs, ChangeBatch.count]
    | cons c cs =>
      cases i with
      | zero => simp [drainPairs, ChangeBatch.count]
      | succ i =>
        have h1 : cs.length ≤ ps.length := Nat.le_of_succ_le_succ (by simpa using h)
        simpa [drainPairs] using ih cs h1 i

theorem drainFrontiers_fst_count {T : Type} [DecidableEq T]
    (fs : List (MutableAntichain T)) (ps : List (ChangeBatch T))
    (h : ps.length ≤ fs.length) (i : Nat) (t : T) :
    MutableAntichain.count ((drainFrontiers fs ps).1.getD i ⟨[]⟩) t =
      MutableAntichain.count (fs.getD i ⟨[]⟩) t + ChangeBatch.count (ps.getD i []) t := by
  induction fs generalizing ps i with
  | nil =>
    have hps : ps = [] := List.length_eq_zero.mp (Nat.le_zero.mp h)
    subst hps
    simp [drainFrontiers, MutableAntichain.count, ChangeBatch.count]
  | cons f fs ih =>
    cases ps with
    | nil => simp [drainFrontiers, ChangeBatch.count]
    | cons p ps =>
      cases i with
      | zero =>
        simp [drainFrontiers, MutableAntichain.count, MutableAntichain.update_iter,
          ChangeBatch.count_append]
      | succ i =>
        have h1 : ps.length ≤ fs.length := Nat.le_of_succ_le_succ (by simpa using h)
        simpa [drainFrontiers] using ih ps h1 i

theorem drainFrontiers_snd_count {T : Type} [DecidableEq T]
    (fs : List (MutableAntichain T)) (ps : List (ChangeBatch T))
    (h : ps.length ≤ fs.length) (i : Nat) (t : T) :
    ChangeBatch.count ((drainFrontiers fs ps).2.getD i []) t = 0 := by
  induction fs generalizing ps i with
  | nil =>
    have hps : ps = [] := List.length_eq_zero.mp (Nat.le_zero.mp h)
    subst hps
    simp [drainFrontiers, ChangeBatch.count]
  | cons f fs ih =>
    cases ps with
    | nil => simp [drainFrontiers, ChangeBatch.count]
    | cons p ps =>
      cases i with
      | zero => simp [drainFrontiers, ChangeBatch.count]
      | succ i =>
        have h1 : ps.length ≤ fs.length := Nat.le_of_succ_le_succ (by simpa using h)
        simpa [drainFrontiers] using ih ps h1 i

/-- C2: at every step of an operator built with build_reschedule, all pending
frontier changes are drained into the per-input MutableAntichains before the
user logic is invoked: the logic observes exactly the refreshed frontiers,
whose counts absorb every pending delta, and the pending batches are left
empty. Only after the logic returns are the consumed, internal and produced
cells drained into the shared progress structure: each published count is
the previous shared count plus exactly what the logic left in the cell, and
the cells are left empty. The step returns the boolean the logic returned. -/
theorem build_reschedule_step_spec {T : Type} [DecidableEq T]
    (logic : List (MutableAntichain T) → OpCells T → Bool × OpCells T)
    (progress : SharedProgress T) (s : OpState T) (i : Nat) (t : T)
    (hf : progress.frontiers.length ≤ s.frontier.length)
    (hc : (logicResult logic progress s).2.consumed.length ≤ progress.consumeds.length)
    (hi : (logicResult logic progress s).2.internal.length ≤ progress.internals.length)
    (hp : (logicResult logic progress s).2.produced.length ≤ progress.produceds.length) :
    (buildRescheduleStep logic progress s).1 = (logicResult logic progress s).1 ∧
    (buildRescheduleStep logic progress s).2.2.frontier =
      (drainFrontiers s.frontier progress.frontiers).1 ∧
    MutableAntichain.count ((buildRescheduleStep logic progress s).2.2.frontier.getD i ⟨[]⟩) t =
      MutableAntichain.count (s.frontier.getD i ⟨[]⟩) t +
        ChangeBatch.count (progress.frontiers.getD i []) t ∧
    ChangeBatch.count ((buildRescheduleStep logic progress s).2.1.frontiers.getD i []) t = 0 ∧
    ChangeBatch.count ((buildRescheduleStep logic progress s).2.1.consumeds.getD i []) t =
      ChangeBatch.count (progress.consumeds.getD i []) t +
        ChangeBatch.count ((logicResult logic progress s).2.consumed.getD i []) t ∧
    ChangeBatch.count ((buildRescheduleStep logic progress s).2.2.cells.consumed.getD i []) t = 0 ∧
    ChangeBatch.count ((buildRescheduleStep logic progress s).2.1.internals.getD i []) t =
      ChangeBatch.count (progress.internals.getD i []) t +
        ChangeBatch.count ((logicResult logic progress s).2.internal.getD i []) t ∧
    ChangeBatch.count ((buildRescheduleStep logic progress s).2.2.cells.internal.getD i []) t = 0 ∧
    ChangeBatch.count ((buildRescheduleStep logic progress s).2.1.produceds.getD i []) t =
      ChangeBatch.count (progress.produceds.getD i []) t +
        ChangeBatch.count ((logicResult logic progress s).2.produced.getD i []) t ∧
    ChangeBatch.count ((buildRescheduleStep logic progress s).2.2.cells.produced.getD i []) t = 0 := by
  refine ⟨rfl, rfl, ?_, ?_, ?_, ?_, ?_, ?_, ?_, ?_⟩
  · exact drainFrontiers_fst_count s.frontier progress.frontiers hf i t
  · exact drainFrontiers_snd_count s.frontier progress.frontiers hf i t
  · exact drainPairs_fst_count progress.consumeds _ hc i t
  · exact drainPairs_snd_count progress.consumeds _ hc i t
  · exact drainPairs_fst_count progress.internals _ hi i t
  · exact drainPairs_snd_count progress.internals _ hi i t
  · exact drainPairs_fst_count progress.produceds _ hp i t
  · exact drainPairs_snd_count progress.produceds _ hp i t

/-- A concrete build_reschedule logic used to witness C2: it consumes one
record at time 5, holds a capability change and produces two records. -/
def witnessLogic : List (MutableAntichain Nat) → OpCells Nat → Bool × OpCells Nat :=
  fun _ _ => (true, { consumed := [[(5, 1)]], internal := [[(5, 1), (6, -1)]], produced := [[(5, 2)]] })

/-- A concrete shared progress used to witness C2. -/
def witnessProgress : SharedProgress Nat :=
  { frontiers := [[(5, 1), (4, -1)]], consumeds := [[]], internals := [[]], produceds := [[]] }

/-- A concrete operator state used to witness C2. -/
def witnessState : OpState Nat :=
  { frontier := [⟨[(4, 1)]⟩], cells := { consumed := [[]], internal := [[]], produced := [[]] } }

theorem build_reschedule_step_witness :
    ChangeBatch.count ((buildRescheduleStep witnessLogic witnessProgress witnessState).2.1.consumeds.getD 0 []) 5 =
      ChangeBatch.count (witnessProgress.consumeds.getD 0 []) 5 +
        ChangeBatch.count ((logicResult witnessLogic witnessProgress witnessState).2.consumed.getD 0 []) 5 :=
  (build_reschedule_step_spec witnessLogic witnessProgress witnessState 0 5
    (by decide) (by decide) (by decide) (by decide)).2.2.2.2.1

/-! ## Initial capabilities in build_reschedule (C3) and output sessions (C4) -/

/-- The timestamp minimum of the Timestamp trait. -/
class TimeMin (T : Type) where
  minimum : T

instance : TimeMin Nat := ⟨0⟩

/-- From dataflow/operators/capability.rs (not among the provided sources;
modelled from the spec): a capability holds a timestamp and a reference to
the internal change batch of one output, modelled by that output's index. -/
structure Capability (T : Type) where
  time : T
  batchIndex : Nat
deriving DecidableEq

/-- From build_reschedule (builder_rc.rs, the capability loop): for each
output's internal change batch, Capability::new(minimum, batch) records a +1
at the minimum timestamp into the batch, and the builder then clears the
batch to discard the evidence of creation. -/
def buildInitialCapabilitiesAux {T : Type} [TimeMin T] (idx : Nat) :
    List (ChangeBatch T) → List (Capability T) × List (ChangeBatch T)
  | [] => ([], [])
  | b :: bs =>
    let b1 := ChangeBatch.update b TimeMin.minimum 1
    let b2 := ChangeBatch.clear b1
    let r := buildInitialCapabilitiesAux (idx + 1) bs
    ({ time := TimeMin.minimum, batchIndex := idx } :: r.1, b2 :: r.2)

/-- The capabilities passed to the logic constructor by build_reschedule,
together with the internal change batches as they stand afterwards. -/
def buildInitialCapabilities {T : Type} [TimeMin T]
    (internals : List (ChangeBatch T)) : List (Capability T) × List (ChangeBatch T) :=
  buildInitialCapabilitiesAux 0 internals

theorem buildInitialCapabilitiesAux_spec {T : Type} [TimeMin T]
    (internals : List (ChangeBatch T)) (idx : Nat) :
    (buildInitialCapabilitiesAux idx internals).1.length = internals.length ∧
    (buildInitialCapabilitiesAux idx internals).2 =
      internals.map (fun _ => ([] : ChangeBatch T)) ∧
    ∀ i, i < internals.length →
      (buildInitialCapabilitiesAux idx internals).1.getD i ⟨TimeMin.minimum, 0⟩ =
        { time := TimeMin.minimum, batchIndex := idx + i } := by
  induction internals generalizing idx with
  | nil => exact ⟨rfl, rfl, fun i hi => absurd hi (by simp)⟩
  | cons b bs ih =>
    refine ⟨by simpa [buildInitialCapabilitiesAux] using (ih (idx + 1)).1, ?_, ?_⟩
    · simpa [buildInitialCapabilitiesAux, ChangeBatch.clear] using (ih (idx + 1)).2.1
    · intro i hi
      cases i with
      | zero => simp [buildInitialCapabilitiesAux]
      | succ i =>
        have h1 : i < bs.length := Nat.lt_of_succ_lt_succ (by simpa using hi)
        have := (ih (idx + 1)).2.2 i h1
        simpa [buildInitialCapabilitiesAux, Nat.add_assoc, Nat.add_comm 1 i] using this

/-- C3: build_reschedule passes its logic constructor exactly one capability
per declared output, each at the minimum timestamp and tied to its own
output's internal change batch, and clears each internal change batch right
after the capability is created, so after the loop every internal batch is
empty and the +1 recorded at creation is never published. -/
theorem build_reschedule_initial_capabilities {T : Type} [TimeMin T] [DecidableEq T]
    (internals : List (ChangeBatch T)) (i : Nat) (t : T) (h : i < internals.length) :
    (buildInitialCapabilities internals).1.length = internals.length ∧
    ((buildInitialCapabilities internals).1.getD i ⟨TimeMin.minimum, 0⟩).time =
      TimeMin.minimum ∧
    ((buildInitialCapabilities internals).1.getD i ⟨TimeMin.minimum, 0⟩).batchIndex = i ∧
    (buildInitialCapabilities internals).2.length = internals.length ∧
    ChangeBatch.count ((buildInitialCapabilities internals).2.getD i []) t = 0 := by
  obtain ⟨h1, h2, h3⟩ := buildInitialCapabilitiesAux_spec internals 0
  have h4 := h3 i h
  refine ⟨h1, ?_, ?_, ?_, ?_⟩
  · rw [buildInitialCapabilities, h4]
  · rw [buildInitialCapabilities, h4]; simp
  · rw [buildInitialCapabilities, h2]; simp
  · rw [buildInitialCapabilities, h2, List.getD_eq_getElem?_getD, List.getElem?_map]
    cases internals[i]? <;> rfl

theorem build_reschedule_initial_capabilities_witness :
    ChangeBatch.count ((buildInitialCapabilities [[((3 : Nat), (2 : Int))], []]).2.getD 1 []) 3 = 0 :=
  (build_reschedule_initial_capabilities [[((3 : Nat), (2 : Int))], []] 1 3 (by decide)).2.2.2.2

/-- Modelled from the spec: opening an output session asserts that the
capability used belongs to this output (the assertion lives in handles.rs,
not among the provided sources; the tests incorrect_capabilities and
correct_capabilities in builder_rc.rs pin the behavior). A failed assertion
aborts the worker, modelled as an error result. -/
def sessionOpen {T : Type} (output : Nat) (cap : Capability T) : Except String Unit :=
  if cap.batchIndex = output then Except.ok () else Except.error "capability used on wrong output"

/-- C4: for an operator with several outputs, opening an output session with
a capability created for a different output triggers the runtime assertion,
modelled as an aborting error, while using each initial capability on its
own output triggers no assertion. -/
theorem capability_wrong_output_asserts {T : Type} [TimeMin T]
    (internals : List (ChangeBatch T)) (i j : Nat)
    (hi : i < internals.length) (_hj : j < internals.length) :
    sessionOpen j ((buildInitialCapabilities internals).1.getD i ⟨TimeMin.minimum, 0⟩) =
      (if i = j then Except.ok () else Except.error "capability used on wrong output") := by
  obtain ⟨h1, h2, h3⟩ := buildInitialCapabilitiesAux_spec internals 0
  rw [buildInitialCapabilities, h3 i hi]
  simp [sessionOpen]

theorem capability_wrong_output_witness :
    sessionOpen 1 ((buildInitialCapabilities ([[], []] : List (ChangeBatch Nat))).1.getD 0
        ⟨TimeMin.minimum, 0⟩) = Except.error "capability used on wrong output" ∧
    sessionOpen 0 ((buildInitialCapabilities ([[], []] : List (ChangeBatch Nat))).1.getD 0
        ⟨TimeMin.minimum, 0⟩) = Except.ok () := by
  constructor
  · simpa using capability_wrong_output_asserts ([[], []] : List (ChangeBatch Nat)) 0 1
      (by decide) (by decide)
  · simpa using capability_wrong_output_asserts ([[], []] : List (ChangeBatch Nat)) 0 0
      (by decide) (by decide)

/-! ## The ObserverHelper counter (C5) -/

/-- Modelled from the spec: CountMap (progress/count_map.rs, not among the
provided sources) accumulates (timestamp, ±count) deltas; update merges a
delta into the entry of its timestamp, dropping an entry whose total reaches
zero. -/
abbrev CountMap (T : Type) : Type := List (T × Int)

/-- Merging one (t, delta) update into a count map. -/
def CountMap.update {T : Type} [DecidableEq T] : CountMap T → T → Int → CountMap T
  | [], t, d => if d = 0 then [] else [(t, d)]
  | (k, v) :: rest, t, d =>
    if k = t then (if v + d = 0 then rest else (k, v + d) :: rest)
    else (k, v) :: CountMap.update rest t d

/-- The total count a count map holds at a timestamp. -/
def CountMap.at {T : Type} [DecidableEq T] (m : CountMap T) (t : T) : Int :=
  (m.map (fun p => if p.1 = t then p.2 else 0)).sum

/-- The total count a count map holds over all timestamps. -/
def CountMap.total {T : Type} (m : CountMap T) : Int :=
  (m.map (fun p => p.2)).sum

theorem CountMap.at_update {T : Type} [DecidableEq T] (m : CountMap T) (t t' : T) (d : Int) :
    CountMap.at (CountMap.update m t d) t' =
      CountMap.at m t' + (if t = t' then d else 0) := by
  induction m with
  | nil =>
    by_cases hd : d = 0
    · subst hd; simp [CountMap.update, CountMap.at]
    · by_cases ht : t = t' <;> simp [CountMap.update, CountMap.at, hd, ht]
  | cons p rest ih =>
    obtain ⟨k, v⟩ := p
    by_cases hk : k = t
    · subst hk
      by_cases hz : v + d = 0
      · by_cases ht : k = t'
        · subst ht
          simp [CountMap.update, hz, CountMap.at]
          omega
        · simp [CountMap.update, hz, CountMap.at, ht]
      · by_cases ht : k = t'
        · subst ht
          simp [CountMap.update, hz, CountMap.at]
          ring
        · simp [CountMap.update, hz, CountMap.at, ht]
    · by_cases ht : k = t'
      · subst ht
        simp only [CountMap.update, hk, if_false, ite_false]
        simp [CountMap.at] at ih ⊢
        rw [ih]
        ring
      · simp only [CountMap.update, hk, if_false, ite_false]
        simp [CountMap.at, ht] at ih ⊢
        rw [ih]

theorem CountMap.total_update {T : Type} [DecidableEq T] (m : CountMap T) (t : T) (d : Int) :
    CountMap.total (CountMap.update m t d) = CountMap.total m + d := by
  induction m with
  | nil =>
    by_cases hd : d = 0
    · subst hd; simp [CountMap.update, CountMap.total]
    · simp [CountMap.update, CountMap.total, hd]
  | cons p rest ih =>
    obtain ⟨k, v⟩ := p
    by_cases hk : k = t
    · subst hk
      by_cases hz : v + d = 0
      · simp [CountMap.update, hz, CountMap.total]
        omega
      · simp [CountMap.update, hz, CountMap.total]
        ring
    · simp [CountMap.update, hk, CountMap.total] at ih ⊢
      rw [ih]
      ring

/-- From communication/channels.rs ObserverHelper: wraps an observer with a
shared CountMap cell and a running i64 record count. The wrapped observer
only forwards calls and is not modelled. -/
structure ObserverHelper (T : Type) where
  counts : CountMap T
  count : Int
deriving DecidableEq

/-- One call on the Observer interface of an ObserverHelper. -/
inductive ObsAction (T D : Type) where
  | openAt (t : T)
  | giveRec (d : D)
  | showRec (d : D)
  | shutAt (t : T)

/-- From the Observer impl for ObserverHelper (communication/channels.rs):
open forwards; give and show increment the running count by one; shut
publishes (time, count) into the shared counts cell and resets the running
count to zero. -/
def ObserverHelper.step {T D : Type} [DecidableEq T] (s : ObserverHelper T) :
    ObsAction T D → ObserverHelper T
  | .openAt _ => s
  | .giveRec _ => { s with count := s.count + 1 }
  | .showRec _ => { s with count := s.count + 1 }
  | .shutAt t => { counts := CountMap.update s.counts t s.count, count := 0 }

/-- Running a sequence of observer calls. -/
def ObserverHelper.run {T D : Type} [DecidableEq T] (s : ObserverHelper T)
    (as : List (ObsAction T D)) : ObserverHelper T :=
  as.foldl ObserverHelper.step s

/-- Whether an observer call delivers a record (give or show). -/
def ObsAction.isRecord {T D : Type} : ObsAction T D → Bool
  | .giveRec _ => true
  | .showRec _ => true
  | _ => false

/-- The number of records delivered by a sequence of observer calls. -/
def numRecords {T D : Type} (as : List (ObsAction T D)) : Nat :=
  (as.filter ObsAction.isRecord).length

theorem observer_helper_conservation {T D : Type} [DecidableEq T]
    (as : List (ObsAction T D)) (s : ObserverHelper T) :
    CountMap.total (ObserverHelper.run s as).counts + (ObserverHelper.run s as).count =
      CountMap.total s.counts + s.count + (numRecords as : Int) := by
  induction as generalizing s with
  | nil => simp [ObserverHelper.run, numRecords]
  | cons a rest ih =>
    have hstep : ObserverHelper.run s (a :: rest) =
        ObserverHelper.run (ObserverHelper.step s a) rest := rfl
    rw [hstep, ih]
    cases a with
    | openAt t => simp [ObserverHelper.step, numRecords, ObsAction.isRecord]
    | giveRec d =>
      simp [ObserverHelper.step, numRecords, ObsAction.isRecord, List.filter_cons]
      ring
    | showRec d =>
      simp [ObserverHelper.step, numRecords, ObsAction.isRecord, List.filter_cons]
      ring
    | shutAt t =>
      simp [ObserverHelper.step, numRecords, ObsAction.isRecord, List.filter_cons,
        CountMap.total_update]

/-- C5: in an ObserverHelper, give and show each increment the running record
count by one without touching the shared counts cell; shut(t) merges the
pair (t, k) into the shared counts cell, where k is the running count of
records given or shown since the previous shut, and resets the running count
to zero; consequently, over any sequence of calls, every record is counted
under exactly one timestamp: the total published count plus the running
count grows by exactly the number of records given or shown. -/
theorem observer_helper_counts {T D : Type} [DecidableEq T]
    (s : ObserverHelper T) (d : D) (t t' : T) (as : List (ObsAction T D)) (hne : t' ≠ t) :
    (ObserverHelper.step s (ObsAction.giveRec d)).count = s.count + 1 ∧
    (ObserverHelper.step s (ObsAction.giveRec d)).counts = s.counts ∧
    (ObserverHelper.step s (ObsAction.showRec (D := D) d)).count = s.count + 1 ∧
    (ObserverHelper.step s (ObsAction.showRec (D := D) d)).counts = s.counts ∧
    CountMap.at (ObserverHelper.step s (ObsAction.shutAt (D := D) t)).counts t =
      CountMap.at s.counts t + s.count ∧
    CountMap.at (ObserverHelper.step s (ObsAction.shutAt (D := D) t)).counts t' =
      CountMap.at s.counts t' ∧
    (ObserverHelper.step s (ObsAction.shutAt (D := D) t)).count = 0 ∧
    CountMap.total (ObserverHelper.run s as).counts + (ObserverHelper.run s as).count =
      CountMap.total s.counts + s.count + (numRecords as : Int) := by
  refine ⟨rfl, rfl, rfl, rfl, ?_, ?_, rfl, observer_helper_conservation as s⟩
  · rw [ObserverHelper.step, CountMap.at_update]
    simp
  · rw [ObserverHelper.step, CountMap.at_update]
    have hne2 : t ≠ t' := Ne.symm hne
    simp [hne2]

theorem observer_helper_counts_witness :
    CountMap.at
        (ObserverHelper.step (T := Nat) ⟨[(2, 1)], 3⟩ (ObsAction.shutAt (D := Nat) 2)).counts 2 =
      CountMap.at ([(2, 1)] : CountMap Nat) 2 + 3 :=
  (observer_helper_counts (T := Nat) (D := Nat) ⟨[(2, 1)], 3⟩ 0 2 5 [] (by decide)).2.2.2.2.1

/-! ## Default connections in the operator builder (C6) -/

/-- From progress/frontier.rs Antichain (not among the provided sources;
modelled from the spec): only its construction via from_elem is needed
here. -/
structure Antichain (S : Type) where
  elements : List S
deriving DecidableEq

/-- An antichain holding exactly one element. -/
def Antichain.from_elem {S : Type} (s : S) : Antichain S := ⟨[s]⟩

/-- From progress/operate.rs PortConnectivity (not among the provided
sources; modelled from the spec): for one input, the registered summary
antichain per output port. -/
abbrev PortConnectivity (S : Type) : Type := List (Nat × Antichain S)

/-- Registers the summary antichain for one more output port. -/
def PortConnectivity.add_port {S : Type} (pc : PortConnectivity S) (port : Nat)
    (entry : Antichain S) : PortConnectivity S :=
  pc ++ [(port, entry)]

/-- From OperatorBuilder (builder_rc.rs): the ports-and-summaries part of the
builder state; summaries holds one PortConnectivity per declared input. -/
structure BuilderPorts (S : Type) where
  inputs : Nat
  outputs : Nat
  summaries : List (PortConnectivity S)
deriving DecidableEq

/-- Applying a function to the element at one position of a list, leaving
other positions unchanged. -/
def modifyAt {α : Type} (f : α → α) : List α → Nat → List α
  | [], _ => []
  | x :: xs, 0 => f x :: xs
  | x :: xs, Nat.succ n => x :: modifyAt f xs n

/-- From OperatorBuilder::new_input_connection (builder_rc.rs): the
connection becomes the summaries entry of the new input (the pact wiring,
frontier and consumed cells are outside this claim). -/
def new_input_connection {S : Type} (b : BuilderPorts S) (connection : PortConnectivity S) :
    BuilderPorts S :=
  { b with inputs := b.inputs + 1, summaries := b.summaries ++ [connection] }

/-- From OperatorBuilder::new_input (builder_rc.rs): the default connection
maps every already declared output to the antichain holding the default
summary. -/
def new_input {S : Type} [Inhabited S] (b : BuilderPorts S) : BuilderPorts S :=
  new_input_connection b
    ((List.range b.outputs).map (fun o => (o, Antichain.from_elem (default : S))))

/-- From OperatorBuilder::new_output_connection (builder_rc.rs): the new
output takes index outputs; for each (input, entry) of the connection, entry
is registered in that input's summaries under the new output port. -/
def new_output_connection {S : Type} (b : BuilderPorts S)
    (connection : List (Nat × Antichain S)) : BuilderPorts S :=
  { b with
    outputs := b.outputs + 1,
    summaries := connection.foldl
      (fun ss ie => modifyAt (fun pc => PortConnectivity.add_port pc b.outputs ie.2) ss ie.1)
      b.summaries }

/-- From OperatorBuilder::new_output (builder_rc.rs): the default connection
maps every already declared input to the antichain holding the default
summary. -/
def new_output {S : Type} [Inhabited S] (b : BuilderPorts S) : BuilderPorts S :=
  new_output_connection b
    ((List.range b.inputs).map (fun i => (i, Antichain.from_elem (default : S))))

theorem modifyAt_length {α : Type} (f : α → α) (l : List α) (j : Nat) :
    (modifyAt f l j).length = l.length := by
  induction l generalizing j with
  | nil => rfl
  | cons x xs ih =>
    cases j with
    | zero => rfl
    | succ j => simpa [modifyAt] using ih j

theorem modifyAt_getD {α : Type} (f : α → α) (l : List α) (j i : Nat) (d : α) :
    (modifyAt f l j).getD i d =
      if i = j ∧ i < l.length then f (l.getD i d) else l.getD i d := by
  induction l generalizing i j with
  | nil => simp [modifyAt]
  | cons x xs ih =>
    cases j with
    | zero =>
      cases i with
      | zero => simp [modifyAt]
      | succ i => simp [modifyAt, Nat.succ_ne_zero]
    | succ j =>
      cases i with
      | zero => simp [modifyAt, (Nat.succ_ne_zero j).symm]
      | succ i =>
        have h := ih j i
        simp only [modifyAt, List.getD_cons_succ, List.length_cons, h]
        by_cases h1 : i = j
        · by_cases h2 : i < xs.length
          · simp [h1, h2, Nat.succ_lt_succ h2]
          · simp [h1, h2, fun h => h2 (Nat.lt_of_succ_lt_succ h)]
        · simp [h1, fun h => h1 (Nat.succ_injective h)]

theorem addPortFold_length {S : Type} (ss : List (PortConnectivity S)) (out : Nat)
    (conn : List (Nat × Antichain S)) :
    (conn.foldl
        (fun ss ie => modifyAt (fun pc => PortConnectivity.add_port pc out ie.2) ss ie.1)
        ss).length = ss.length := by
  induction conn generalizing ss with
  | nil => rfl
  | cons ie rest ih =>
    simpa [List.foldl_cons, modifyAt_length] using
      ih (modifyAt (fun pc => PortConnectivity.add_port pc out ie.2) ss ie.1)

theorem addPortFold_range_getD {S : Type} (ss : List (PortConnectivity S)) (out n : Nat)
    (ent : Nat → Antichain S) (i : Nat) :
    (((List.range n).map (fun j => (j, ent j))).foldl
        (fun ss ie => modifyAt (fun pc => PortConnectivity.add_port pc out ie.2) ss ie.1)
        ss).getD i [] =
      if i < n ∧ i < ss.length then
        PortConnectivity.add_port (ss.getD i []) out (ent i)
      else ss.getD i [] := by
  induction n with
  | zero => simp
  | succ n ih =>
    rw [List.range_succ, List.map_append, List.foldl_append]
    simp only [List.map_cons, List.map_nil, List.foldl_cons, List.foldl_nil]
    rw [modifyAt_getD, addPortFold_length, ih]
    by_cases h1 : i = n
    · subst h1
      by_cases h2 : i < ss.length
      · simp [h2, Nat.lt_irrefl, Nat.lt_succ_self]
      · simp [h2]
    · by_cases h3 : i < n
      · have h4 : i < n + 1 := Nat.lt_succ_of_lt h3
        by_cases h2 : i < ss.length
        · simp [h1, h2, h3, h4]
        · simp [h1, h2, h3]
      · have h4 : ¬ i < n + 1 := fun h => h1 (Nat.eq_of_lt_succ_of_not_lt h h3)
        simp [h1, h3, h4]

/-- C6: new_input registers, as the connection of the new input, the
antichain holding the default summary for every already declared output;
and new_output registers the antichain holding the default summary, under
the new output index, in the connectivity of every already declared input. -/
theorem builder_default_connections {S : Type} [Inhabited S]
    (b : BuilderPorts S) (i : Nat) (hs : b.summaries.length = b.inputs) (hi : i < b.inputs) :
    (new_input b).inputs = b.inputs + 1 ∧
    (new_input b).summaries =
      b.summaries ++
        [(List.range b.outputs).map (fun o => (o, Antichain.from_elem (default : S)))] ∧
    (new_output b).outputs = b.outputs + 1 ∧
    (new_output b).summaries.getD i [] =
      PortConnectivity.add_port (b.summaries.getD i []) b.outputs
        (Antichain.from_elem (default : S)) := by
  refine ⟨rfl, rfl, rfl, ?_⟩
  have h := addPortFold_range_getD b.summaries b.outputs b.inputs
    (fun _ => Antichain.from_elem (default : S)) i
  rw [new_output, new_output_connection]
  simpa [hi, hs ▸ hi] using h

theorem builder_default_connections_witness :
    (new_output (S := Nat) ⟨2, 1, [[(0, Antichain.from_elem 0)], []]⟩).summaries.getD 0 [] =
      PortConnectivity.add_port ([(0, Antichain.from_elem 0)] : PortConnectivity Nat) 1
        (Antichain.from_elem (default : Nat)) :=
  (builder_default_connections (S := Nat) ⟨2, 1, [[(0, Antichain.from_elem 0)], []]⟩ 0
    (by decide) (by decide)).2.2.2

/-! ## Communication initialization (C7, C8, C9) -/

/-- From initialize.rs WorkerGuards: the join handle of one spawned worker
thread: the name the thread was spawned with, and its outcome, either a
normal return value or a panic payload of type P. -/
structure WorkerGuard (P T : Type) where
  name : String
  result : Except P T

/-- From initialize_from (initialize.rs): one worker thread is spawned per
allocator builder, enumerated in order; the thread of index idx is spawned
with name "timely:work-" followed by idx and runs the supplied function on
the allocator built from its builder. A thread body is modelled by its
outcome. -/
def initialize_fromAux {A B T P : Type} (build : A → B) (func : B → Except P T)
    (idx : Nat) : List A → List (WorkerGuard P T)
  | [] => []
  | b :: bs =>
    { name := "timely:work-" ++ toString idx, result := func (build b) } ::
      initialize_fromAux build func (idx + 1) bs

/-- From initialize_from (initialize.rs): spawn the workers, enumerating the
builders from index 0, and collect their guards in worker-index order. -/
def initialize_from {A B T P : Type} (builders : List A) (build : A → B)
    (func : B → Except P T) : List (WorkerGuard P T) :=
  initialize_fromAux build func 0 builders

/-- From WorkerGuards::join (initialize.rs): each guard is joined in worker
order; a normal return becomes Ok and a panic payload p becomes Err of the
string the Debug formatter renders for p. -/
def WorkerGuards.join {P T : Type} (debugFmt : P → String)
    (guards : List (WorkerGuard P T)) : List (Except String T) :=
  guards.map (fun g => Except.mapError debugFmt g.result)

/-- From the Drop impl of WorkerGuards (initialize.rs): dropping the guards
joins every worker thread in order, observing each outcome and returning
nothing. -/
def WorkerGuards.dropJoin {P T : Type} (guards : List (WorkerGuard P T)) :
    List (Except P T) :=
  guards.map (fun g => g.result)

theorem initialize_fromAux_length {A B T P : Type} (build : A → B) (func : B → Except P T)
    (idx : Nat) (builders : List A) :
    (initialize_fromAux build func idx builders).length = builders.length := by
  induction builders generalizing idx with
  | nil => rfl
  | cons b bs ih => simpa [initialize_fromAux] using ih (idx + 1)

theorem initialize_fromAux_getD {A B T P : Type} (build : A → B) (func : B → Except P T)
    (idx : Nat) (builders : List A) (i : Nat) (a0 : A) (d : WorkerGuard P T)
    (h : i < builders.length) :
    (initialize_fromAux build func idx builders).getD i d =
      { name := "timely:work-" ++ toString (idx + i),
        result := func (build (builders.getD i a0)) } := by
  induction builders generalizing idx i with
  | nil => exact absurd h (by simp)
  | cons b bs ih =>
    cases i with
    | zero => simp [initialize_fromAux]
    | succ i =>
      have h1 : i < bs.length := Nat.lt_of_succ_lt_succ (by simpa using h)
      have := ih (idx + 1) i h1
      simpa [initialize_fromAux, Nat.add_assoc, Nat.add_comm 1 i] using this

/-- C7: initialize_from spawns exactly one worker thread per allocator
builder; WorkerGuards::join returns one result per worker, in worker-index
order, where entry i is Ok of worker i's return value if worker i returned
normally and Err of the string formed from worker i's panic payload if it
panicked; and dropping the guards joins every worker thread, observing each
outcome in the same order. -/
theorem initialize_from_join_spec {A B T P : Type} (builders : List A) (build : A → B)
    (func : B → Except P T) (debugFmt : P → String) (i : Nat) (a0 : A)
    (h : i < builders.length) :
    (initialize_from builders build func).length = builders.length ∧
    (WorkerGuards.join debugFmt (initialize_from builders build func)).length =
      builders.length ∧
    (WorkerGuards.join debugFmt (initialize_from builders build func)).getD i
        (Except.error "") =
      Except.mapError debugFmt (func (build (builders.getD i a0))) ∧
    (WorkerGuards.dropJoin (initialize_from builders build func)).length =
      builders.length ∧
    (WorkerGuards.dropJoin (initialize_from builders build func)).getD i
        (func (build a0)) =
      func (build (builders.getD i a0)) := by
  have hlen : (initialize_from builders build func).length = builders.length :=
    initialize_fromAux_length build func 0 builders
  have hguard : (initialize_from builders build func).getD i
      { name := "", result := func (build a0) } =
      { name := "timely:work-" ++ toString (0 + i),
        result := func (build (builders.getD i a0)) } :=
    initialize_fromAux_getD build func 0 builders i a0
      { name := "", result := func (build a0) } h
  have hi : i < (initialize_from builders build func).length := by rw [hlen]; exact h
  refine ⟨hlen, by simp [WorkerGuards.join, hlen], ?_, by simp [WorkerGuards.dropJoin, hlen], ?_⟩
  · rw [WorkerGuards.join, List.getD_eq_getElem?_getD, List.getElem?_map]
    have hsome : (initialize_from builders build func)[i]? =
        some ((initialize_from builders build func).getD i
          { name := "", result := func (build a0) }) := by
      rw [List.getD_eq_getElem?_getD]
      cases hq : (initialize_from builders build func)[i]? with
      | none =>
        exact absurd (List.getElem?_eq_none_iff.mp hq) (by omega)
      | some g => rfl
    rw [hsome, hguard]
    rfl
  · rw [WorkerGuards.dropJoin, List.getD_eq_getElem?_getD, List.getElem?_map]
    have hsome : (initialize_from builders build func)[i]? =
        some ((initialize_from builders build func).getD i
          { name := "", result := func (build a0) }) := by
      rw [List.getD_eq_getElem?_getD]
      cases hq : (initialize_from builders build func)[i]? with
      | none =>
        exact absurd (List.getElem?_eq_none_iff.mp hq) (by omega)
      | some g => rfl
    rw [hsome, hguard]
    rfl

theorem initialize_from_join_witness :
    (WorkerGuards.join (fun p => p)
        (initialize_from [true, false] (fun a => a)
          (fun b => if b then (Except.ok 7 : Except String Nat) else Except.error "boom"))).getD
        1 (Except.error "") =
      Except.mapError (fun p => p)
        ((fun b => if b then (Except.ok 7 : Except String Nat) else Except.error "boom")
          ((fun a => a) ([true, false].getD 1 true))) :=
  (initialize_from_join_spec [true, false] (fun a => a)
    (fun b => if b then (Except.ok 7 : Except String Nat) else Except.error "boom")
    (fun p => p) 1 true (by decide)).2.2.1

/-! ## Configuration parsing (C8) -/

/-- From Config (initialize.rs): the possible configurations of the
communication infrastructure; the Cluster log_fn closure carries no data
relevant here. -/
inductive Config where
  | thread
  | process (threads : Nat)
  | processBinary (threads : Nat)
  | cluster (threads process : Nat) (addresses : List String) (report zerocopy : Bool)
deriving DecidableEq

/-- The parsed getopts matches consumed by Config::from_matches: the w, p and
n options with their defaults applied, the report and zerocopy flags, and
the optional h hostfile argument. -/
structure Matches where
  threads : Nat
  process : Nat
  processes : Nat
  report : Bool
  zerocopy : Bool
  hostfile : Option String
deriving DecidableEq

/-- From Config::from_matches (initialize.rs): the filesystem is modelled by
a function giving, per file name, the list of its lines, or the rendered io
error when opening or reading the file fails. -/
def Config.from_matches (m : Matches) (fs : String → Except String (List String)) :
    Except String Config :=
  if 1 < m.processes then
    match m.hostfile with
    | some hosts =>
      match fs hosts with
      | Except.error e => Except.error e
      | Except.ok lines =>
        let addresses := lines.take m.processes
        if addresses.length < m.processes then
          Except.error ("could only read " ++ toString addresses.length ++
            " addresses from " ++ hosts ++ ", but -n: " ++ toString m.processes)
        else
          Except.ok (Config.cluster m.threads m.process addresses m.report m.zerocopy)
    | none =>
      Except.ok (Config.cluster m.threads m.process
        ((List.range m.processes).map (fun index => "localhost:" ++ toString (2101 + index)))
        m.report m.zerocopy)
  else if 1 < m.threads then
    if m.zerocopy then Except.ok (Config.processBinary m.threads)
    else Except.ok (Config.process m.threads)
  else Except.ok Config.thread

/-- C8: with more than one process requested and a hostfile argument given,
Config::from_matches returns an error string, and produces no configuration,
both when the file cannot be opened and when the readable file holds fewer
lines than the requested number of processes; in the latter case the error
describes how many addresses could be read. -/
theorem from_matches_hostfile_errors (m : Matches)
    (fs : String → Except String (List String)) (hosts e : String) (lines : List String)
    (hn : 1 < m.processes) (hh : m.hostfile = some hosts) :
    (fs hosts = Except.error e → Config.from_matches m fs = Except.error e) ∧
    (fs hosts = Except.ok lines → lines.length < m.processes →
      Config.from_matches m fs = Except.error ("could only read " ++
        toString (lines.take m.processes).length ++ " addresses from " ++ hosts ++
        ", but -n: " ++ toString m.processes)) := by
  constructor
  · intro hfs
    simp [Config.from_matches, hn, hh, hfs]
  · intro hfs hlen
    have hlt : (lines.take m.processes).length < m.processes := by
      simp only [List.length_take]
      omega
    simp [Config.from_matches, hn, hh, hfs, hlt]
    exact hlen

theorem from_matches_hostfile_witness :
    Config.from_matches
        { threads := 1, process := 0, processes := 2, report := false, zerocopy := false,
          hostfile := some "hosts.txt" }
        (fun _ => Except.ok ["localhost:2101"]) =
      Except.error ("could only read " ++
        toString ((["localhost:2101"].take 2).length) ++ " addresses from " ++
        "hosts.txt" ++ ", but -n: " ++ toString 2) :=
  (from_matches_hostfile_errors
    { threads := 1, process := 0, processes := 2, report := false, zerocopy := false,
      hostfile := some "hosts.txt" }
    (fun _ => Except.ok ["localhost:2101"]) "hosts.txt" "" ["localhost:2101"]
    (by decide) rfl).2 rfl (by decide)

/-! ## Worker thread names (C9) -/

/-- C9 counterexample: the worker thread spawned for index 0 is named
"timely:work-0", not "work-0" as the claim states. -/
theorem worker_thread_name_counterexample :
    ((initialize_from [()] (fun a => a) (fun _ => (Except.ok 0 : Except String Nat))).getD 0
        { name := "", result := Except.ok 0 }).name ≠ "work-0" := by
  decide

/-- C9 amended: the worker thread spawned for worker index i is named exactly
"timely:work-" followed by the decimal worker index. -/
theorem worker_thread_name_amended {A B T P : Type} (builders : List A) (build : A → B)
    (func : B → Except P T) (i : Nat) (a0 : A) (h : i < builders.length) :
    ((initialize_from builders build func).getD i
        { name := "", result := func (build a0) }).name = "timely:work-" ++ toString i := by
  rw [initialize_from,
    initialize_fromAux_getD build func 0 builders i a0 { name := "", result := func (build a0) } h]
  simp

theorem worker_thread_name_witness :
    ((initialize_from [(), ()] (fun a => a) (fun _ => (Except.ok 0 : Except String Nat))).getD 1
        { name := "", result := (fun _ => (Except.ok 0 : Except String Nat)) ((fun a => a) ()) }).name =
      "timely:work-" ++ toString 1 :=
  worker_thread_name_amended [(), ()] (fun a => a)
    (fun _ => (Except.ok 0 : Except String Nat)) 1 () (by decide)

end Timely
